import Mathlib

/-!
Shallow embedding of `src/app.py` (US Visitor List Cleaner).

Scalar cells of the spreadsheet are modelled by `Cell`: a value is either
missing (pandas `NaN`), a string, or an integer (used for the regenerated
`S/N` numbers).  Python's `str()` on a cell is `pyStr`.  Digit characters
are modelled as the ASCII digits `0`-`9` (Python's regex `\d` on ASCII
input).  A pandas `DataFrame` is a `List Row`, where `Row` holds the 11
canonical columns; only those 11 columns are modelled, mirroring
`df.iloc[:, :11]`.  The workbook produced by `generate_visitor_only_us`
is a list of named sheets, each a grid of cells; styling (colors, fonts,
widths) is not modelled, but which cells receive the "invalid" fill is.
-/

namespace VisitorCleaner

/-- A scalar spreadsheet cell: missing (`NaN`), a string, or an integer. -/
inductive Cell where
  | na : Cell
  | str (s : String) : Cell
  | int (n : Nat) : Cell
deriving DecidableEq

/-- Python `str()` applied to a cell value (`str(float("nan")) = "nan"`). -/
def pyStr : Cell → String
  | .na => "nan"
  | .str s => s
  | .int n => toString n

/-- Characters stripped by Python's `str.strip()` / matched by `\s` (ASCII). -/
def pyIsSpace (c : Char) : Bool :=
  c = ' ' || c = '\t' || c = '\n' || c = '\r' || c = '\x0b' || c = '\x0c'

/-- Python `str.strip()` on a character list. -/
def pyStripList (l : List Char) : List Char :=
  ((l.dropWhile pyIsSpace).reverse.dropWhile pyIsSpace).reverse

/-- Python `str.strip()`. -/
def pyStrip (s : String) : String := ⟨pyStripList s.data⟩

/-- `re.sub(r"\D", "", s)`: keep only the digit characters of `s`. -/
def digitsOf (s : String) : List Char := s.data.filter Char.isDigit

/-- `split_name` from `src/app.py`: stringify and strip the full name; if a
space character occurs, split at the first space, else the second part is
empty.  (Python's `" " in s` / `s.find(" ")` look for the space character
`U+0020` only.) -/
def split_name (full_name : Cell) : String × String :=
  let s := pyStripList (pyStr full_name).data
  if s.contains ' ' then
    let i := s.findIdx (· = ' ')
    (⟨s.take i⟩, ⟨s.drop (i + 1)⟩)
  else
    (⟨s⟩, "")

/-- Python `str.title()` (ASCII model): an alphabetic character is
uppercased when the previous character is not alphabetic and lowercased
otherwise; other characters pass through. -/
def pyTitleGo (prevAlpha : Bool) : List Char → List Char
  | [] => []
  | c :: cs =>
    (if c.isAlpha then (if prevAlpha then c.toLower else c.toUpper) else c)
      :: pyTitleGo c.isAlpha cs

/-- Python `str.title()`. -/
def pyTitle (s : String) : String := ⟨pyTitleGo false s.data⟩

/-- Python `str.lower()` (ASCII model). -/
def pyLower (s : String) : String := ⟨s.data.map Char.toLower⟩

/-- Python `str.upper()` (ASCII model). -/
def pyUpper (s : String) : String := ⟨s.data.map Char.toUpper⟩

/-- `clean_gender` from `src/app.py`. -/
def clean_gender (g : Cell) : Cell :=
  let v := pyUpper (pyStrip (pyStr g))
  if v = "M" then .str ("Male")
  else if v = "F" then .str ("Female")
  else if v = "MALE" || v = "FEMALE" then .str (pyTitle v)
  else .str (pyTitle v)

/-- `fix_mobile` from `src/app.py`, on the stringified value: keep only
digits; if more than 10 remain, drop the trailing `extra` zeros when the
string ends with that many zeros, otherwise keep the last 10; finally
left-pad with zeros (`str.zfill(10)`) when fewer than 10 remain. -/
def fix_mobile_str (x : String) : String :=
  let d := digitsOf x
  let d :=
    if 10 < d.length then
      let extra := d.length - 10
      if d.drop (d.length - extra) = List.replicate extra '0' then
        d.take (d.length - extra)
      else
        d.drop (d.length - 10)
    else d
  let d := if d.length < 10 then List.replicate (10 - d.length) '0' ++ d else d
  ⟨d⟩

/-- `fix_mobile` applied to a cell (the code stringifies first). -/
def fix_mobile (x : Cell) : String := fix_mobile_str (pyStr x)

/-- One row of the table, restricted to the 11 canonical columns
(`df.iloc[:, :11]` discards the rest): S/N, Vehicle Plate Number,
Company Full Name, Full Name, First Name, Middle and Last Name,
Driver License Number, Nationality (Country Name), Gender,
Mobile Number, Remarks. -/
structure Row where
  sn : Cell
  plate : Cell
  company : Cell
  fullName : Cell
  firstName : Cell
  midLast : Cell
  license : Cell
  nationality : Cell
  gender : Cell
  mobile : Cell
  remarks : Cell
deriving DecidableEq

/-- `df.dropna(subset=df.columns[3:10], how="all")` drops a row exactly
when all seven cells Full Name .. Mobile Number are missing. -/
def allBlank (r : Row) : Bool :=
  r.fullName == Cell.na && r.firstName == Cell.na && r.midLast == Cell.na &&
  r.license == Cell.na && r.nationality == Cell.na && r.gender == Cell.na &&
  r.mobile == Cell.na

/-- Step 2 of `clean_data_us`: drop the all-blank rows. -/
def dropBlankRows (l : List Row) : List Row := l.filter (fun r => !allBlank r)

/-- The `nat_map` dictionary of `clean_data_us`. -/
def nat_map : List (String × String) :=
  [("chinese", "China"), ("singaporean", "Singapore"), ("malaysian", "Malaysia"),
   ("indian", "India"), ("usa", "United States"), ("us", "United States")]

/-- `Series.replace(mapping, regex=False)`: replace a value that equals a
key of the mapping by the mapped value; other values pass through. -/
def replaceExact (m : List (String × String)) (s : String) : String :=
  match m.find? (fun p => p.1 == s) with
  | some p => p.2
  | none => s

/-- Step 3 of `clean_data_us`: `astype(str).str.strip().str.lower()`,
exact-value replacement through `nat_map`, then `str.title()`. -/
def normalizeNationality (c : Cell) : Cell :=
  .str (pyTitle (replaceExact nat_map (pyLower (pyStrip (pyStr c)))))

/-- Strict lexicographic (code point) comparison of character lists;
this is Python's `<` on strings. -/
def charListLt : List Char → List Char → Bool
  | [], [] => false
  | [], _ :: _ => true
  | _ :: _, [] => false
  | a :: as, b :: bs => a < b || (a = b && charListLt as bs)

/-- Strict order on cells: strings by code-point order, missing values
last (pandas `na_position="last"`).  Pandas raises on a column mixing
strings and numbers, so the sorting theorems are stated for tables whose
sort-key cells are strings or missing; the `int` rows of the table are
ordered arbitrarily but consistently. -/
def cellLt (a b : Cell) : Bool :=
  match a, b with
  | .str x, .str y => charListLt x.data y.data
  | .str _, .int _ => true
  | .str _, .na => true
  | .int _, .str _ => false
  | .int x, .int y => x < y
  | .int _, .na => true
  | .na, _ => false

/-- The three-key comparison of step 4 of `clean_data_us`:
(Company Full Name, Nationality, Full Name), each ascending. -/
def rowLeB (a b : Row) : Bool :=
  cellLt a.company b.company ||
    (a.company == b.company &&
      (cellLt a.nationality b.nationality ||
        (a.nationality == b.nationality &&
          (cellLt a.fullName b.fullName || a.fullName == b.fullName))))

/-- The sort relation as a proposition. -/
def rowLe (a b : Row) : Prop := rowLeB a b = true

instance : DecidableRel rowLe :=
  fun a b => inferInstanceAs (Decidable (rowLeB a b = true))

/-- Step 4 of `clean_data_us`: `df.sort_values([...])`.  A multi-column
`sort_values` is a stable sort by the key tuple (pandas uses
`np.lexsort`); any stable sort by a total preorder produces the same
list, so it is modelled by the stable `List.insertionSort`. -/
def sortRows (l : List Row) : List Row := List.insertionSort rowLe l

/-- `df["S/N"] = range(1, len(df) + 1)`, renumbering from `n`. -/
def renumberFrom : Nat → List Row → List Row
  | _, [] => []
  | n, r :: rs => { r with sn := .int n } :: renumberFrom (n + 1) rs

/-- Step 5 of `clean_data_us`: renumber S/N starting at 1. -/
def renumber (l : List Row) : List Row := renumberFrom 1 l

/-- State machine for `re.sub(r"\s*;\s*", ";", s)`: whitespace is
buffered until the next non-space character; a `;` discards the buffered
whitespace (the `\s*` before the `;`) and switches to a mode in which
following whitespace is dropped (the `\s*` after it). -/
def collapseGo (ws : List Char) (afterSemi : Bool) : List Char → List Char
  | [] => ws
  | c :: cs =>
    if pyIsSpace c then
      if afterSemi then collapseGo ws true cs
      else collapseGo (ws ++ [c]) false cs
    else if c = ';' then
      ';' :: collapseGo [] true cs
    else
      ws ++ c :: collapseGo [] false cs

/-- `re.sub(r"\s*;\s*", ";", s)`. -/
def collapseSemi (l : List Char) : List Char := collapseGo [] false l

/-- Step 6 of `clean_data_us`: `astype(str)`, replace `/` and `,` by `;`,
collapse whitespace around `;`, strip, and map the exact value `"nan"`
to the empty string. -/
def normalizePlate (c : Cell) : Cell :=
  let s1 := (pyStr c).data.map (fun ch => if ch = '/' || ch = ',' then ';' else ch)
  let s3 := pyStripList (collapseSemi s1)
  .str (if s3 = "nan".data then "" else ⟨s3⟩)

/-- Step 7 of `clean_data_us`: title-case Full Name, then overwrite
First Name and Middle and Last Name via `split_name`. -/
def nameStep (r : Row) : Row :=
  let fn := pyTitle (pyStr r.fullName)
  let p := split_name (.str fn)
  { r with fullName := .str fn, firstName := .str p.1, midLast := .str p.2 }

/-- Step 10 of `clean_data_us`: `fillna("")`, `astype(str)`, strip a
trailing `".0"`, remove non-digits, keep the last 4 characters. -/
def cleanLicense (c : Cell) : Cell :=
  let s0 := match c with | .na => "" | c => pyStr c
  let s1 := if s0.data.length ≥ 2 && s0.data.drop (s0.data.length - 2) = ['.', '0']
            then ⟨s0.data.take (s0.data.length - 2)⟩ else s0
  let d := digitsOf s1
  .str ⟨d.drop (d.length - 4)⟩

/-- Step 3 of `clean_data_us` as a row update. -/
def natUpdate (r : Row) : Row :=
  { r with nationality := normalizeNationality r.nationality }

/-- Step 6 of `clean_data_us` as a row update. -/
def plateUpdate (r : Row) : Row := { r with plate := normalizePlate r.plate }

/-- Step 8 of `clean_data_us` as a row update. -/
def mobileUpdate (r : Row) : Row := { r with mobile := .str (fix_mobile r.mobile) }

/-- Step 9 of `clean_data_us` as a row update. -/
def genderUpdate (r : Row) : Row := { r with gender := clean_gender r.gender }

/-- Step 10 of `clean_data_us` as a row update. -/
def licenseUpdate (r : Row) : Row := { r with license := cleanLicense r.license }

/-- `clean_data_us` from `src/app.py`: the full row-cleaning pipeline.
Pandas applies each step column-wise over the whole table; every step is
row-independent, so the column updates are modelled as row maps, in the
order of the source: drop blank rows, normalize nationality, sort,
renumber S/N, normalize plates, title-case and split names, fix mobile
numbers, normalize gender, clean driver license numbers. -/
def clean_data_us (l : List Row) : List Row :=
  (((((renumber (sortRows ((dropBlankRows l).map natUpdate))).map
      plateUpdate).map nameStep).map mobileUpdate).map genderUpdate).map
    licenseUpdate

/-! ### The workbook generator `generate_visitor_only_us` -/

/-- A sheet is a grid of cell values (styling is not modelled). -/
abbrev Sheet := List (List Cell)

/-- A workbook: named sheets in order. -/
abbrev Workbook := List (String × Sheet)

/-- Step 5 of the generator: the text the license check runs on,
`str(cell.value).strip() if cell.value is not None else ""`. -/
def licenseCellText (c : Cell) : String :=
  match c with
  | .na => ""
  | .str s => pyStrip s
  | .int n => pyStrip (pyStr (.int n))

/-- Step 5 of the generator: the cell is highlighted iff the text does
not match `^\d{4}$`. -/
def licenseFlag (c : Cell) : Bool :=
  !((licenseCellText c).length == 4 && (licenseCellText c).data.all Char.isDigit)

/-- Step 6 of the generator: the text the Middle-and-Last-Name check
runs on, `str(cell.value).strip() if cell.value not in (None, "") else ""`. -/
def midLastCellText (c : Cell) : String :=
  match c with
  | .na => ""
  | .str s => if s = "" then "" else pyStrip s
  | .int n => pyStrip (pyStr (.int n))

/-- Step 6 of the generator: the cell is highlighted iff the text is
empty. -/
def midLastFlag (c : Cell) : Bool := midLastCellText c == ""

/-- Which cell of a data row receives the invalid fill: only column G
(0-based index 6, Driver License Number) and column F (0-based index 5,
Middle and Last Name) are ever tested by the generator. -/
def cellFlagged (r : Row) (c : Nat) : Bool :=
  if c == 6 then licenseFlag r.license
  else if c == 5 then midLastFlag r.midLast
  else false

/-- The `has_errors` boolean accumulated by steps 5 and 6 of the
generator over all data rows. -/
def has_errors_calc (l : List Row) : Bool :=
  l.any (fun r => licenseFlag r.license) || l.any (fun r => midLastFlag r.midLast)

/-- The header row written by `dataframe_to_rows(df, header=True)`. -/
def headerRow : List Cell :=
  [.str ("S/N"), .str ("Vehicle Plate Number"), .str ("Company Full Name"),
   .str ("Full Name"), .str ("First Name"), .str ("Middle and Last Name"),
   .str ("Driver License Number"), .str ("Nationality (Country Name)"),
   .str ("Gender"), .str ("Mobile Number"), .str ("Remarks")]

/-- One data row written to the sheet, in canonical column order. -/
def rowCells (r : Row) : List Cell :=
  [r.sn, r.plate, r.company, r.fullName, r.firstName, r.midLast,
   r.license, r.nationality, r.gender, r.mobile, r.remarks]

/-- `[x.strip() for x in str(v).split(";") if x.strip()]`. -/
def plateTokens (c : Cell) : List String :=
  (((pyStr c).split (· = ';')).map pyStrip).filter (fun t => !(t == ""))

/-- Step 7 of the generator: all plate tokens of the table
(`df["Vehicle Plate Number"].dropna()` skips missing cells). -/
def allPlates (df : List Row) : List String :=
  (df.filter (fun r => !(r.plate == Cell.na))).flatMap (fun r => plateTokens r.plate)

/-- Python string `<` (code-point lexicographic), as a relation. -/
def strLe (a b : String) : Prop := (charListLt a.data b.data || a == b) = true

instance : DecidableRel strLe :=
  fun x y => inferInstanceAs (Decidable ((charListLt x.data y.data || x == y) = true))

/-- `";".join(sorted(set(plates)))`: deduplicate, sort ascending. -/
def sortedUnique (l : List String) : List String :=
  List.insertionSort strLe l.eraseDups

/-- The "Visitor List" sheet contents written by the generator: header,
data rows, one blank separator row, the optional Vehicles block, and
the Total Visitors block (count of rows with a non-missing company). -/
def renderSheet (df : List Row) : Sheet :=
  let plates := allPlates df
  let vehicles : Sheet :=
    if plates.isEmpty then []
    else [[Cell.na, .str ("Vehicles")],
          [Cell.na, .str (String.intercalate (";") (sortedUnique plates))]]
  let total : Sheet :=
    [[Cell.na, .str ("Total Visitors")],
     [Cell.na, .int (df.countP (fun r => !(r.company == Cell.na)))]]
  (headerRow :: df.map rowCells) ++ [[]] ++ vehicles ++ total

/-- `generate_visitor_only_us` from `src/app.py`: reload the uploaded
workbook; if a sheet named "Visitor List" exists, clear it and rewrite
it (its position is kept), otherwise create it at the end; no other
sheet is touched.  Returns the workbook and the `has_errors` flag. -/
def generate_visitor_only_us (df : List Row) (wb : Workbook) : Workbook × Bool :=
  let sheet := renderSheet df
  let wb2 :=
    if wb.any (fun p => p.1 = "Visitor List") then
      wb.map (fun p => if p.1 = "Visitor List" then ("Visitor List", sheet) else p)
    else
      wb ++ [("Visitor List", sheet)]
  (wb2, has_errors_calc df)

/-! ### The standalone clearance-date estimator

Dates are modelled as day numbers with day 0 a Monday, so that
`d % 7` is Python's `date.weekday()` (Monday = 0 .. Sunday = 6) and
adding 1 is `timedelta(days=1)`. -/

/-- `next_working_day` from `src/app.py`: advance day by day while the
date falls on a weekend. -/
def next_working_day (d : Nat) : Nat :=
  if h : 5 ≤ d % 7 then next_working_day (d + 1) else d
termination_by (if 5 ≤ d % 7 then 7 - d % 7 else 0)
decreasing_by
  simp_wf
  split_ifs <;> omega

/-- The counting loop of `earliest_clearance_inclusive`: while fewer
than `workdays` working days are counted, advance one day and count it
when it is a weekday. -/
def clearanceLoop (workdays d counted : Nat) : Nat :=
  if h : counted < workdays then
    if h2 : (d + 1) % 7 < 5 then clearanceLoop workdays (d + 1) (counted + 1)
    else clearanceLoop workdays (d + 1) counted
  else d
termination_by 8 * (workdays - counted) + (6 - d % 7)
decreasing_by
  · omega
  · omega

/-- `earliest_clearance_inclusive` from `src/app.py` (the app calls it
with `workdays = 2`): day 1 is the submission date rolled forward past a
weekend; after counting `workdays` working days inclusively, the answer
is the next working day after the last counted one. -/
def earliest_clearance_inclusive (submitDate workdays : Nat) : Nat :=
  next_working_day (clearanceLoop workdays (next_working_day submitDate) 1 + 1)

/-! ### Claim-side definitions -/

/-- Claim-side: a date rolled forward to the next weekday when it falls
on a weekend (identity on Monday-Friday). -/
def rollForward (d : Nat) : Nat :=
  if d % 7 = 5 then d + 2 else if d % 7 = 6 then d + 1 else d

/-- Claim-side: the next weekday strictly after `d`. -/
def nextWeekdayAfter (d : Nat) : Nat := rollForward (d + 1)

/-- Claim-side restatement of the business rule: day 1 is the
submission date rolled forward past a weekend; the last counted day is
reached after `workdays - 1` further weekday steps (so that `workdays`
weekdays are counted inclusive of day 1); the result is the next
weekday strictly after the last counted day. -/
def clearanceSpec (submitDate workdays : Nat) : Nat :=
  nextWeekdayAfter (nextWeekdayAfter^[workdays - 1] (rollForward submitDate))

/-- The tuple a row is compared by in step 4. -/
def sortKey (r : Row) : Cell × Cell × Cell := (r.company, r.nationality, r.fullName)

/-- Whether a cell holds a string. -/
def Cell.isStr : Cell → Bool
  | .str _ => true
  | _ => false

/-- Claim-side: ascending lexicographic comparison of the sort keys
(Company Full Name, then Nationality, then Full Name), by case-sensitive
code-point string comparison (`List.Lex (· < ·)` on the characters). -/
def keyLex (a b : Row) : Prop :=
  List.Lex (· < ·) (pyStr a.company).data (pyStr b.company).data ∨
  (pyStr a.company = pyStr b.company ∧
    (List.Lex (· < ·) (pyStr a.nationality).data (pyStr b.nationality).data ∨
      (pyStr a.nationality = pyStr b.nationality ∧
        (List.Lex (· < ·) (pyStr a.fullName).data (pyStr b.fullName).data ∨
          pyStr a.fullName = pyStr b.fullName))))

/-- A sample row used by the concrete witnesses below. -/
def sampleRow (company fullName license nationality gender mobile remarks : Cell) : Row :=
  { sn := .int 1, plate := .na, company := company, fullName := fullName,
    firstName := .na, midLast := .na, license := license,
    nationality := nationality, gender := gender, mobile := mobile,
    remarks := remarks }

/-- A fully populated, valid sample row. -/
def wRowValid : Row :=
  sampleRow (.str ("Alpha")) (.str ("John Smith")) (.str ("1234"))
    (.str ("usa")) (.str ("M")) (.str ("1234567890")) .na

/-- A sample row with a missing Full Name that still survives the
blank-row drop (its Gender is populated). -/
def wRowNoName : Row :=
  sampleRow (.str ("Beta")) .na .na .na (.str ("M")) .na .na

/-- A sample row with only S/N and Company populated. -/
def wRowOnlyCompany : Row :=
  sampleRow (.str ("OnlyCo")) .na .na .na .na .na .na

/-- A sample row with only Remarks populated besides S/N and Company
missing. -/
def wRowOnlyRemarks : Row :=
  sampleRow .na .na .na .na .na .na (.str ("note"))

/-- A second valid sample row, sorting before `wRowValid`. -/
def wRowValid2 : Row :=
  sampleRow (.str ("Alpha")) (.str ("Ann Lee")) (.str ("0042"))
    (.str ("chinese")) (.str ("F")) (.str ("98765432109876543210")) .na

/-- The row `clean_data_us [wRowValid]` produces from `wRowValid`. -/
def wRowValidCleaned : Row :=
  { sn := .int 1, plate := .str (""), company := .str ("Alpha"),
    fullName := .str ("John Smith"), firstName := .str ("John"),
    midLast := .str ("Smith"), license := .str ("1234"),
    nationality := .str ("United States"), gender := .str ("Male"),
    mobile := .str ("1234567890"), remarks := .na }

/-! ### Helper lemmas about `fix_mobile` -/

lemma digitsOf_all_digits (x : String) : (digitsOf x).all Char.isDigit = true := by
  simp only [digitsOf, List.all_eq_true, List.mem_filter]
  exact fun c hc => hc.2

lemma all_digits_sublist {l₁ l₂ : List Char} (h : l₁.Sublist l₂)
    (h2 : l₂.all Char.isDigit = true) : l₁.all Char.isDigit = true := by
  simp only [List.all_eq_true] at *
  exact fun c hc => h2 c (h.mem hc)

/-- Unfolding of `fix_mobile_str` with the arithmetic on `extra`
(`len - (len - 10) = 10`) carried out. -/
lemma fix_mobile_str_eq (x : String) :
    fix_mobile_str x =
      if 10 < (digitsOf x).length then
        (if (digitsOf x).drop 10 = List.replicate ((digitsOf x).length - 10) '0' then
          ⟨(digitsOf x).take 10⟩
        else
          ⟨(digitsOf x).drop ((digitsOf x).length - 10)⟩)
      else if (digitsOf x).length < 10 then
        ⟨List.replicate (10 - (digitsOf x).length) '0' ++ digitsOf x⟩
      else ⟨digitsOf x⟩ := by
  unfold fix_mobile_str
  by_cases h1 : 10 < (digitsOf x).length
  · have e1 : (digitsOf x).length - ((digitsOf x).length - 10) = 10 := by omega
    simp only [if_pos h1, e1]
    by_cases h2 : (digitsOf x).drop 10 = List.replicate ((digitsOf x).length - 10) '0'
    · have hl : ((digitsOf x).take 10).length = 10 := by
        simp only [List.length_take]
        omega
      simp [if_pos h2, hl]
    · have hl : ((digitsOf x).drop ((digitsOf x).length - 10)).length = 10 := by
        simp only [List.length_drop]
        omega
      simp [if_neg h2, hl]
  · simp only [if_neg h1]
    by_cases h3 : (digitsOf x).length < 10
    · simp [if_pos h3]
    · simp [if_neg h3]

lemma fix_mobile_str_len_all (x : String) :
    (fix_mobile_str x).data.length = 10 ∧
    (fix_mobile_str x).data.all Char.isDigit = true := by
  rw [fix_mobile_str_eq]
  have hall := digitsOf_all_digits x
  split_ifs with h1 h2 h3
  · refine ⟨?_, all_digits_sublist (List.take_sublist _ _) hall⟩
    simp only [List.length_take]
    omega
  · refine ⟨?_, all_digits_sublist (List.drop_sublist _ _) hall⟩
    simp only [List.length_drop]
    omega
  · constructor
    · simp only [List.length_append, List.length_replicate]
      omega
    · simp only [List.all_append, hall, Bool.and_true, List.all_eq_true]
      intro c hc
      rw [List.eq_of_mem_replicate hc]
      decide
  · refine ⟨?_, hall⟩
    show (digitsOf x).length = 10
    omega

/-- C2: for every input (missing and non-string values included),
`fix_mobile` keeps only the digits of the stringified value; with more
than 10 digits it first tries to drop exactly the `extra = count - 10`
trailing zeros and only otherwise keeps the last 10 digits; with fewer
than 10 digits it left-pads with zeros; with exactly 10 digits it
returns them unchanged; the result always has exactly 10 digit
characters. -/
theorem fix_mobile_follows_spec (x : Cell) :
    (fix_mobile x).length = 10 ∧
    (fix_mobile x).data.all Char.isDigit = true ∧
    (10 < (digitsOf (pyStr x)).length →
      ((digitsOf (pyStr x)).drop 10 =
          List.replicate ((digitsOf (pyStr x)).length - 10) '0' →
        fix_mobile x = ⟨(digitsOf (pyStr x)).take 10⟩) ∧
      ((digitsOf (pyStr x)).drop 10 ≠
          List.replicate ((digitsOf (pyStr x)).length - 10) '0' →
        fix_mobile x = ⟨(digitsOf (pyStr x)).drop ((digitsOf (pyStr x)).length - 10)⟩)) ∧
    ((digitsOf (pyStr x)).length < 10 →
      fix_mobile x =
        ⟨List.replicate (10 - (digitsOf (pyStr x)).length) '0' ++ digitsOf (pyStr x)⟩) ∧
    ((digitsOf (pyStr x)).length = 10 → fix_mobile x = ⟨digitsOf (pyStr x)⟩) := by
  obtain ⟨hlen, hall⟩ := fix_mobile_str_len_all (pyStr x)
  refine ⟨hlen, hall, ?_, ?_, ?_⟩
  · intro h1
    constructor
    · intro h2
      rw [fix_mobile, fix_mobile_str_eq, if_pos h1, if_pos h2]
    · intro h2
      rw [fix_mobile, fix_mobile_str_eq, if_pos h1, if_neg h2]
  · intro h3
    rw [fix_mobile, fix_mobile_str_eq, if_neg (by omega), if_pos h3]
  · intro h4
    rw [fix_mobile, fix_mobile_str_eq, if_neg (by omega), if_neg (by omega)]

theorem fix_mobile_follows_spec_witness :
    fix_mobile (.str ("1234567890123")) = "4567890123" ∧
    fix_mobile (.str ("12345678900")) = "1234567890" ∧
    fix_mobile (.str ("123")) = "0000000123" := by
  refine ⟨?_, ?_, ?_⟩
  · rw [((fix_mobile_follows_spec (.str ("1234567890123"))).2.2.1 (by decide)).2 (by decide)]
    decide
  · rw [((fix_mobile_follows_spec (.str ("12345678900"))).2.2.1 (by decide)).1 (by decide)]
    decide
  · rw [(fix_mobile_follows_spec (.str ("123"))).2.2.2.1 (by decide)]
    decide

/-- C7: `fix_mobile` is idempotent, and any string of exactly 10 digits
is a fixed point. -/
theorem fix_mobile_idempotent (x : Cell) (s : String) (h1 : s.length = 10)
    (h2 : s.data.all Char.isDigit = true) :
    fix_mobile (.str (fix_mobile x)) = fix_mobile x ∧ fix_mobile (.str s) = s := by
  have fixed : ∀ t : String, t.length = 10 → t.data.all Char.isDigit = true →
      fix_mobile (.str t) = t := by
    intro t ht hd
    obtain ⟨l⟩ := t
    have hdig : digitsOf ⟨l⟩ = l := by
      simpa only [digitsOf] using List.filter_eq_self.mpr (List.all_eq_true.mp hd)
    rw [fix_mobile, pyStr, fix_mobile_str_eq, hdig]
    have hl : l.length = 10 := ht
    rw [if_neg (by omega), if_neg (by omega)]
  obtain ⟨hlen, hall⟩ := fix_mobile_str_len_all (pyStr x)
  exact ⟨fixed _ hlen hall, fixed s h1 h2⟩

theorem fix_mobile_idempotent_witness :
    fix_mobile (.str (fix_mobile (.str ("+1 (234) 567-8900")))) =
      fix_mobile (.str ("+1 (234) 567-8900")) ∧
    fix_mobile (.str ("0000000077")) = "0000000077" :=
  fix_mobile_idempotent (.str ("+1 (234) 567-8900")) "0000000077" (by decide) (by decide)

/-! ### `split_name` (C6) -/

lemma findIdx_eq_of_first {p : Char → Bool} :
    ∀ (l : List Char) (i : Nat) (hi : i < l.length), p (l.get ⟨i, hi⟩) = true →
      (∀ (j : Nat) (hj : j < i), p (l.get ⟨j, Nat.lt_trans hj hi⟩) = false) →
      l.findIdx p = i
  | [], i, hi, _, _ => absurd hi (by simp)
  | c :: t, 0, _, hp, _ => by
    simp only [List.get] at hp
    simp [List.findIdx_cons, hp]
  | c :: t, i + 1, hi, hp, hfirst => by
    have hc : p c = false := hfirst 0 (Nat.succ_pos i)
    have ht : t.findIdx p = i := by
      refine findIdx_eq_of_first t i (by simpa using hi) hp ?_
      intro j hj
      exact hfirst (j + 1) (by omega)
    simp [List.findIdx_cons, hc, ht]

/-- C6 (amended): `split_name` strips the stringified value; when a
space character (U+0020) occurs in the stripped string it splits at the
first space, returning the part before it and the part after it;
otherwise it returns the stripped string paired with the empty string. -/
theorem split_name_follows_spec (x : Cell) :
    (' ' ∉ pyStripList (pyStr x).data →
      split_name x = (⟨pyStripList (pyStr x).data⟩, "")) ∧
    ∀ (i : Nat) (hi : i < (pyStripList (pyStr x).data).length),
      (pyStripList (pyStr x).data).get ⟨i, hi⟩ = ' ' →
      (∀ (j : Nat) (hj : j < i),
        (pyStripList (pyStr x).data).get ⟨j, Nat.lt_trans hj hi⟩ ≠ ' ') →
      split_name x = (⟨(pyStripList (pyStr x).data).take i⟩,
                      ⟨(pyStripList (pyStr x).data).drop (i + 1)⟩) := by
  constructor
  · intro hmem
    rw [split_name]
    have : (pyStripList (pyStr x).data).contains ' ' = false := by
      simpa using hmem
    simp only [this, Bool.false_eq_true, if_false]
  · intro i hi hsp hfirst
    rw [split_name]
    have hmem : ' ' ∈ pyStripList (pyStr x).data := hsp ▸ List.get_mem _ i hi
    have hcont : (pyStripList (pyStr x).data).contains ' ' = true := by
      simpa using hmem
    have hidx : (pyStripList (pyStr x).data).findIdx (fun c => c = ' ') = i := by
      refine findIdx_eq_of_first _ i hi (by simpa using hsp) ?_
      intro j hj
      simpa using hfirst j hj
    simp only [hcont, if_true, hidx]

theorem split_name_follows_spec_witness :
    split_name (.str ("John Michael Smith")) = ("John", "Michael Smith") := by
  rw [(split_name_follows_spec (.str ("John Michael Smith"))).2 4 (by decide)
    (by decide) (by decide)]
  decide

/-- C6 counterexample: the trimmed value "a\tb" contains a whitespace
character (the tab), so the claim predicts the split ("a", "b"); the
code only looks for the space character and returns ("a\tb", ""). -/
theorem split_name_counterexample :
    (pyStripList (pyStr (Cell.str ("a\tb"))).data).any pyIsSpace = true ∧
    split_name (Cell.str ("a\tb")) = ("a\tb", "") ∧
    split_name (Cell.str ("a\tb")) ≠ ("a", "b") := by decide

/-! ### The clearance-date estimator (C9) -/

/-- `rollForward d` is the least weekday on or after `d`. -/
lemma rollForward_least (d : Nat) :
    d ≤ rollForward d ∧ rollForward d % 7 < 5 ∧
    ∀ e, d ≤ e → e % 7 < 5 → rollForward d ≤ e := by
  simp only [rollForward]
  split_ifs <;> refine ⟨by omega, by omega, ?_⟩ <;> intro e he1 he2 <;> omega

lemma rollForward_weekday (d : Nat) : rollForward d % 7 < 5 :=
  (rollForward_least d).2.1

lemma next_working_day_eq (d : Nat) : next_working_day d = rollForward d := by
  rw [next_working_day]
  split_ifs with h1
  · rw [next_working_day]
    split_ifs with h2
    · rw [next_working_day]
      split_ifs with h3
      · exact absurd h3 (by omega)
      · simp only [rollForward]
        split_ifs <;> omega
    · simp only [rollForward]
      split_ifs <;> omega
  · simp only [rollForward]
    split_ifs <;> omega

lemma clearanceLoop_step (w d c : Nat) (h : c < w) :
    clearanceLoop w d c = clearanceLoop w (next_working_day (d + 1)) (c + 1) := by
  rw [next_working_day_eq]
  conv_lhs => rw [clearanceLoop]
  rw [dif_pos h]
  by_cases hwd : (d + 1) % 7 < 5
  · rw [dif_pos hwd]
    have hr : rollForward (d + 1) = d + 1 := by
      simp only [rollForward]
      split_ifs <;> omega
    rw [hr]
  · rw [dif_neg hwd]
    have h56 : (d + 1) % 7 = 5 ∨ (d + 1) % 7 = 6 := by omega
    rcases h56 with h5 | h6
    · conv_lhs => rw [clearanceLoop]
      rw [dif_pos h, dif_neg (by omega : ¬ (d + 1 + 1) % 7 < 5)]
      conv_lhs => rw [clearanceLoop]
      rw [dif_pos h, dif_pos (by omega : (d + 1 + 1 + 1) % 7 < 5)]
      have hr : rollForward (d + 1) = d + 1 + 1 + 1 := by
        rw [rollForward, if_pos h5]
      rw [hr]
    · conv_lhs => rw [clearanceLoop]
      rw [dif_pos h, dif_pos (by omega : (d + 1 + 1) % 7 < 5)]
      have hr : rollForward (d + 1) = d + 1 + 1 := by
        simp only [rollForward]
        split_ifs <;> omega
      rw [hr]

lemma clearanceLoop_iterate : ∀ (n w c : Nat), c + n = w → ∀ d,
    clearanceLoop w d c = nextWeekdayAfter^[n] d
  | 0, w, c, hcw, d => by
    rw [clearanceLoop, dif_neg (by omega : ¬ c < w)]
    simp
  | n + 1, w, c, hcw, d => by
    rw [clearanceLoop_step w d c (by omega)]
    rw [clearanceLoop_iterate n w (c + 1) (by omega) _]
    rw [Function.iterate_succ_apply]
    rw [next_working_day_eq]
    rfl

/-- C9: for every submission date and every `workdays ≥ 1`,
`earliest_clearance_inclusive` computes exactly the spec's rule — roll
the submission date forward past a weekend to get day 1, count
`workdays` weekdays inclusive of day 1, and return the next weekday
strictly after the last counted one — and the result is always a
Monday-to-Friday date. -/
theorem earliest_clearance_follows_spec (submitDate workdays : Nat)
    (hw : 1 ≤ workdays) :
    earliest_clearance_inclusive submitDate workdays =
      clearanceSpec submitDate workdays ∧
    earliest_clearance_inclusive submitDate workdays % 7 < 5 := by
  constructor
  · rw [earliest_clearance_inclusive,
      clearanceLoop_iterate (workdays - 1) workdays 1 (by omega) _,
      next_working_day_eq submitDate, next_working_day_eq]
    rfl
  · rw [earliest_clearance_inclusive, next_working_day_eq]
    exact rollForward_weekday _

theorem earliest_clearance_follows_spec_witness :
    earliest_clearance_inclusive 4 2 = clearanceSpec 4 2 ∧
    earliest_clearance_inclusive 4 2 % 7 < 5 :=
  earliest_clearance_follows_spec 4 2 (by decide)

/-! ### Order lemmas for the sort (C3) -/

lemma charListLt_trans : ∀ {x y z : List Char}, charListLt x y = true →
    charListLt y z = true → charListLt x z = true
  | [], [], _, h1, _ => by simp [charListLt] at h1
  | [], _ :: _, [], _, h2 => by simp [charListLt] at h2
  | [], _ :: _, _ :: _, _, _ => rfl
  | _ :: _, [], _, h1, _ => by simp [charListLt] at h1
  | _ :: _, _ :: _, [], _, h2 => by simp [charListLt] at h2
  | a :: as, b :: bs, c :: cs, h1, h2 => by
    simp only [charListLt, Bool.or_eq_true, Bool.and_eq_true, decide_eq_true_eq] at h1 h2 ⊢
    rcases h1 with h1 | ⟨e1, h1⟩
    · rcases h2 with h2 | ⟨e2, h2⟩
      · exact Or.inl (lt_trans h1 h2)
      · exact Or.inl (e2 ▸ h1)
    · rcases h2 with h2 | ⟨e2, h2⟩
      · exact Or.inl (e1 ▸ h2)
      · exact Or.inr ⟨e1.trans e2, charListLt_trans h1 h2⟩

lemma charListLt_trichotomy : ∀ (x y : List Char),
    charListLt x y = true ∨ x = y ∨ charListLt y x = true
  | [], [] => Or.inr (Or.inl rfl)
  | [], _ :: _ => Or.inl rfl
  | _ :: _, [] => Or.inr (Or.inr rfl)
  | a :: as, b :: bs => by
    simp only [charListLt, Bool.or_eq_true, Bool.and_eq_true, decide_eq_true_eq,
      List.cons.injEq]
    rcases lt_trichotomy a b with h | h | h
    · exact Or.inl (Or.inl h)
    · subst h
      rcases charListLt_trichotomy as bs with h2 | h2 | h2
      · exact Or.inl (Or.inr ⟨rfl, h2⟩)
      · exact Or.inr (Or.inl ⟨rfl, h2⟩)
      · exact Or.inr (Or.inr (Or.inr ⟨rfl, h2⟩))
    · exact Or.inr (Or.inr (Or.inl h))

/-- `charListLt` is the canonical lexicographic strict order on
character lists (Python's case-sensitive string `<`). -/
lemma charListLt_iff : ∀ (x y : List Char),
    charListLt x y = true ↔ List.Lex (· < ·) x y
  | [], [] =>
    iff_of_false (by simp [charListLt]) (by intro h; cases h)
  | [], b :: bs => iff_of_true rfl List.Lex.nil
  | a :: as, [] =>
    iff_of_false (by simp [charListLt]) (by intro h; cases h)
  | a :: as, b :: bs => by
    simp only [charListLt, Bool.or_eq_true, Bool.and_eq_true, decide_eq_true_eq]
    constructor
    · rintro (h | ⟨rfl, h⟩)
      · exact List.Lex.rel h
      · exact List.Lex.cons ((charListLt_iff as bs).mp h)
    · intro h
      cases h with
      | rel h => exact Or.inl h
      | cons h => exact Or.inr ⟨rfl, (charListLt_iff as bs).mpr h⟩

lemma cellLt_trans : ∀ {a b c : Cell}, cellLt a b = true → cellLt b c = true →
    cellLt a c = true
  | .str _, .str _, .str _, h1, h2 => charListLt_trans h1 h2
  | .str _, .str _, .int _, _, _ => rfl
  | .str _, .str _, .na, _, _ => rfl
  | .str _, .int _, .str _, _, h2 => by simp [cellLt] at h2
  | .str _, .int _, .int _, _, _ => rfl
  | .str _, .int _, .na, _, _ => rfl
  | .str _, .na, _, _, h2 => by simp [cellLt] at h2
  | .int _, .str _, _, h1, _ => by simp [cellLt] at h1
  | .int _, .int _, .str _, _, h2 => by simp [cellLt] at h2
  | .int x, .int y, .int z, h1, h2 => by
    simp only [cellLt, decide_eq_true_eq] at h1 h2 ⊢
    omega
  | .int _, .int _, .na, _, _ => rfl
  | .int _, .na, _, _, h2 => by simp [cellLt] at h2
  | .na, _, _, h1, _ => by simp [cellLt] at h1

lemma cellLt_trichotomy : ∀ (a b : Cell), cellLt a b = true ∨ a = b ∨ cellLt b a = true
  | .str x, .str y => by
    rcases charListLt_trichotomy x.data y.data with h | h | h
    · exact Or.inl h
    · refine Or.inr (Or.inl ?_)
      obtain ⟨xl⟩ := x
      obtain ⟨yl⟩ := y
      simp_all
    · exact Or.inr (Or.inr h)
  | .str _, .int _ => Or.inl rfl
  | .str _, .na => Or.inl rfl
  | .int _, .str _ => Or.inr (Or.inr rfl)
  | .int x, .int y => by
    simp only [cellLt, decide_eq_true_eq, Cell.int.injEq]
    omega
  | .int _, .na => Or.inl rfl
  | .na, .str _ => Or.inr (Or.inr rfl)
  | .na, .int _ => Or.inr (Or.inr rfl)
  | .na, .na => Or.inr (Or.inl rfl)

lemma rowLeB_iff (a b : Row) : rowLeB a b = true ↔
    (cellLt a.company b.company = true ∨ (a.company = b.company ∧
      (cellLt a.nationality b.nationality = true ∨ (a.nationality = b.nationality ∧
        (cellLt a.fullName b.fullName = true ∨ a.fullName = b.fullName))))) := by
  simp [rowLeB, Bool.or_eq_true, Bool.and_eq_true, beq_iff_eq]

instance : IsTotal Row rowLe := by
  refine ⟨fun a b => ?_⟩
  simp only [rowLe, rowLeB_iff]
  rcases cellLt_trichotomy a.company b.company with h1 | h1 | h1
  · exact Or.inl (Or.inl h1)
  · rcases cellLt_trichotomy a.nationality b.nationality with h2 | h2 | h2
    · exact Or.inl (Or.inr ⟨h1, Or.inl h2⟩)
    · rcases cellLt_trichotomy a.fullName b.fullName with h3 | h3 | h3
      · exact Or.inl (Or.inr ⟨h1, Or.inr ⟨h2, Or.inl h3⟩⟩)
      · exact Or.inl (Or.inr ⟨h1, Or.inr ⟨h2, Or.inr h3⟩⟩)
      · exact Or.inr (Or.inr ⟨h1.symm, Or.inr ⟨h2.symm, Or.inl h3⟩⟩)
    · exact Or.inr (Or.inr ⟨h1.symm, Or.inl h2⟩)
  · exact Or.inr (Or.inl h1)

instance : IsTrans Row rowLe := by
  refine ⟨fun a b c h1 h2 => ?_⟩
  simp only [rowLe, rowLeB_iff] at h1 h2 ⊢
  rcases h1 with h1 | ⟨e1, h1⟩
  · rcases h2 with h2 | ⟨e2, h2⟩
    · exact Or.inl (cellLt_trans h1 h2)
    · exact Or.inl (e2 ▸ h1)
  · rcases h2 with h2 | ⟨e2, h2⟩
    · exact Or.inl (e1 ▸ h2)
    · refine Or.inr ⟨e1.trans e2, ?_⟩
      rcases h1 with h1 | ⟨f1, h1⟩
      · rcases h2 with h2 | ⟨f2, h2⟩
        · exact Or.inl (cellLt_trans h1 h2)
        · exact Or.inl (f2 ▸ h1)
      · rcases h2 with h2 | ⟨f2, h2⟩
        · exact Or.inl (f1 ▸ h2)
        · refine Or.inr ⟨f1.trans f2, ?_⟩
          rcases h1 with h1 | h1
          · rcases h2 with h2 | h2
            · exact Or.inl (cellLt_trans h1 h2)
            · exact Or.inl (h2 ▸ h1)
          · rcases h2 with h2 | h2
            · exact Or.inl (h1 ▸ h2)
            · exact Or.inr (h1.trans h2)

lemma rowLe_of_sortKey_eq {a b : Row} (h : sortKey a = sortKey b) : rowLe a b := by
  simp only [sortKey, Prod.mk.injEq] at h
  obtain ⟨h1, h2, h3⟩ := h
  simp only [rowLe, rowLeB_iff]
  exact Or.inr ⟨h1, Or.inr ⟨h2, Or.inr h3⟩⟩

/-! ### Stability of `insertionSort` via `filter` -/

lemma filter_orderedInsert_pos {α : Type} (le : α → α → Prop) [DecidableRel le]
    (p : α → Bool) (x : α) (hx : p x = true) (hall : ∀ y, p y = true → le x y)
    (l : List α) : (l.orderedInsert le x).filter p = x :: l.filter p := by
  induction l with
  | nil => simp [List.orderedInsert, hx]
  | cons y l ih =>
    rw [List.orderedInsert]
    split_ifs with hle
    · simp [List.filter_cons, hx]
    · have hpy : p y = false := by
        cases h : p y
        · rfl
        · exact absurd (hall y h) hle
      simp [List.filter_cons, hpy, ih]

lemma filter_orderedInsert_neg {α : Type} (le : α → α → Prop) [DecidableRel le]
    (p : α → Bool) (x : α) (hx : p x = false) (l : List α) :
    (l.orderedInsert le x).filter p = l.filter p := by
  induction l with
  | nil => simp [List.orderedInsert, hx]
  | cons y l ih =>
    rw [List.orderedInsert]
    split_ifs with hle
    · simp [List.filter_cons, hx]
    · simp [List.filter_cons, ih]

/-- A stable sort does not reorder elements that are mutually related
(in particular, elements with equal sort keys). -/
lemma filter_insertionSort {α : Type} (le : α → α → Prop) [DecidableRel le]
    (p : α → Bool) (hkey : ∀ x y, p x = true → p y = true → le x y) :
    ∀ l : List α, (List.insertionSort le l).filter p = l.filter p := by
  intro l
  induction l with
  | nil => rfl
  | cons x l ih =>
    rw [List.insertionSort]
    cases hx : p x
    · rw [filter_orderedInsert_neg le p x hx, ih]
      simp [List.filter_cons, hx]
    · rw [filter_orderedInsert_pos le p x hx (fun y hy => hkey x y hx hy), ih]
      simp [List.filter_cons, hx]

/-! ### Renumbering lemmas -/

lemma renumberFrom_length : ∀ (n : Nat) (l : List Row),
    (renumberFrom n l).length = l.length
  | _, [] => rfl
  | n, r :: rs => by
    simp only [renumberFrom, List.length_cons, renumberFrom_length (n + 1) rs]

lemma renumberFrom_map_sn : ∀ (n : Nat) (l : List Row),
    (renumberFrom n l).map (fun r => r.sn) =
      (List.range l.length).map (fun i => Cell.int (n + i))
  | _, [] => rfl
  | n, r :: rs => by
    simp only [renumberFrom, List.map_cons, List.length_cons,
      List.range_succ_eq_map, renumberFrom_map_sn (n + 1) rs, List.map_map,
      Nat.add_zero]
    congr 1
    refine List.map_congr_left ?_
    intro i _
    simp only [Function.comp, Nat.succ_eq_add_one]
    congr 1
    omega

lemma mem_renumberFrom : ∀ (n : Nat) (l : List Row) (x : Row), x ∈ l →
    ∃ m, { x with sn := Cell.int m } ∈ renumberFrom n l
  | _, [], x, hx => absurd hx (List.not_mem_nil x)
  | n, r :: rs, x, hx => by
    rcases List.mem_cons.mp hx with rfl | hx
    · exact ⟨n, List.mem_cons_self _ _⟩
    · obtain ⟨m, hm⟩ := mem_renumberFrom (n + 1) rs x hx
      exact ⟨m, List.mem_cons_of_mem _ hm⟩

/-! ### Pipeline decomposition lemmas -/

lemma mem_clean_data_us {raw : List Row} {r : Row} (h : r ∈ clean_data_us raw) :
    ∃ x ∈ renumber (sortRows ((dropBlankRows raw).map natUpdate)),
      r = licenseUpdate (genderUpdate (mobileUpdate (nameStep (plateUpdate x)))) := by
  simp only [clean_data_us, List.mem_map] at h
  obtain ⟨x4, ⟨x3, ⟨x2, ⟨x1, ⟨x0, hx0, rfl⟩, rfl⟩, rfl⟩, rfl⟩, rfl⟩ := h
  exact ⟨x0, hx0, rfl⟩

lemma post_license (x : Row) :
    (licenseUpdate (genderUpdate (mobileUpdate (nameStep (plateUpdate x))))).license =
      cleanLicense x.license := by
  simp [licenseUpdate, genderUpdate, mobileUpdate, nameStep, plateUpdate]

lemma post_mobile (x : Row) :
    (licenseUpdate (genderUpdate (mobileUpdate (nameStep (plateUpdate x))))).mobile =
      .str (fix_mobile x.mobile) := by
  simp [licenseUpdate, genderUpdate, mobileUpdate, nameStep, plateUpdate]

lemma post_fullName (x : Row) :
    (licenseUpdate (genderUpdate (mobileUpdate (nameStep (plateUpdate x))))).fullName =
      .str (pyTitle (pyStr x.fullName)) := by
  simp [licenseUpdate, genderUpdate, mobileUpdate, nameStep, plateUpdate]

lemma post_firstName (x : Row) :
    (licenseUpdate (genderUpdate (mobileUpdate (nameStep (plateUpdate x))))).firstName =
      .str (split_name (.str (pyTitle (pyStr x.fullName)))).1 := by
  simp [licenseUpdate, genderUpdate, mobileUpdate, nameStep, plateUpdate]

lemma post_midLast (x : Row) :
    (licenseUpdate (genderUpdate (mobileUpdate (nameStep (plateUpdate x))))).midLast =
      .str (split_name (.str (pyTitle (pyStr x.fullName)))).2 := by
  simp [licenseUpdate, genderUpdate, mobileUpdate, nameStep, plateUpdate]

lemma post_sn (x : Row) :
    (licenseUpdate (genderUpdate (mobileUpdate (nameStep (plateUpdate x))))).sn =
      x.sn := by
  simp [licenseUpdate, genderUpdate, mobileUpdate, nameStep, plateUpdate]

lemma clean_data_us_length_eq (raw : List Row) :
    (clean_data_us raw).length = (dropBlankRows raw).length := by
  simp [clean_data_us, renumber, renumberFrom_length, sortRows,
    List.length_insertionSort]

/-! ### `cleanLicense` invariants -/

lemma pyIsSpace_eq_false_of_digit {c : Char} (h : c.isDigit = true) :
    pyIsSpace c = false := by
  cases hsp : pyIsSpace c
  · rfl
  · exfalso
    simp only [pyIsSpace, Bool.or_eq_true, decide_eq_true_eq] at hsp
    rcases hsp with ((((rfl | rfl) | rfl) | rfl) | rfl) | rfl <;>
      exact absurd h (by decide)

lemma pyStripList_of_digits (l : List Char) (h : l.all Char.isDigit = true) :
    pyStripList l = l := by
  have haux : ∀ l' : List Char, l'.all Char.isDigit = true →
      l'.dropWhile pyIsSpace = l' := by
    intro l' h'
    cases l' with
    | nil => rfl
    | cons c cs =>
      rw [List.dropWhile_cons]
      have hc : pyIsSpace c = false :=
        pyIsSpace_eq_false_of_digit (List.all_eq_true.mp h' c (List.mem_cons_self c cs))
      simp [hc]
  rw [pyStripList, haux l h, haux l.reverse (by simpa using h), List.reverse_reverse]

lemma pyStrip_of_digits (s : String) (h : s.data.all Char.isDigit = true) :
    pyStrip s = s := by
  obtain ⟨l⟩ := s
  show (⟨pyStripList l⟩ : String) = ⟨l⟩
  rw [pyStripList_of_digits l h]

lemma cleanLicense_isStr (c : Cell) :
    cleanLicense c = .str (pyStr (cleanLicense c)) := by
  simp only [cleanLicense, pyStr]

lemma cleanLicense_spec (c : Cell) :
    (pyStr (cleanLicense c)).length ≤ 4 ∧
    (pyStr (cleanLicense c)).data.all Char.isDigit = true := by
  simp only [cleanLicense, pyStr]
  constructor
  · show (List.drop _ _).length ≤ 4
    rw [List.length_drop]
    omega
  · exact all_digits_sublist (List.drop_sublist _ _) (digitsOf_all_digits _)

/-- C4: `clean_data_us` drops exactly the rows whose seven cells
Full Name through Mobile Number are all missing; a row with any of the
seven populated is kept, and no later pipeline step drops or adds a
row. -/
theorem clean_data_us_blank_row_drop (raw : List Row) (r : Row) (h : r ∈ raw) :
    ((r.fullName = Cell.na ∧ r.firstName = Cell.na ∧ r.midLast = Cell.na ∧
      r.license = Cell.na ∧ r.nationality = Cell.na ∧ r.gender = Cell.na ∧
      r.mobile = Cell.na) → r ∉ dropBlankRows raw) ∧
    (¬ (r.fullName = Cell.na ∧ r.firstName = Cell.na ∧ r.midLast = Cell.na ∧
      r.license = Cell.na ∧ r.nationality = Cell.na ∧ r.gender = Cell.na ∧
      r.mobile = Cell.na) → r ∈ dropBlankRows raw) ∧
    (clean_data_us raw).length = (dropBlankRows raw).length := by
  have hiff : allBlank r = true ↔
      (r.fullName = Cell.na ∧ r.firstName = Cell.na ∧ r.midLast = Cell.na ∧
       r.license = Cell.na ∧ r.nationality = Cell.na ∧ r.gender = Cell.na ∧
       r.mobile = Cell.na) := by
    simp [allBlank, Bool.and_eq_true, beq_iff_eq]
    tauto
  refine ⟨?_, ?_, clean_data_us_length_eq raw⟩
  · intro hconj hmem
    have := (List.mem_filter.mp hmem).2
    rw [Bool.not_eq_true', ← Bool.not_eq_true] at this
    exact this (hiff.mpr hconj)
  · intro hconj
    refine List.mem_filter.mpr ⟨h, ?_⟩
    have : allBlank r = false := by
      cases hb : allBlank r
      · rfl
      · exact absurd (hiff.mp hb) hconj
    simp [this]

theorem clean_data_us_blank_row_drop_witness :
    wRowOnlyCompany ∉ dropBlankRows [wRowValid, wRowOnlyCompany, wRowOnlyRemarks] ∧
    wRowOnlyRemarks ∉ dropBlankRows [wRowValid, wRowOnlyCompany, wRowOnlyRemarks] ∧
    wRowValid ∈ dropBlankRows [wRowValid, wRowOnlyCompany, wRowOnlyRemarks] ∧
    (clean_data_us [wRowValid, wRowOnlyCompany, wRowOnlyRemarks]).length =
      (dropBlankRows [wRowValid, wRowOnlyCompany, wRowOnlyRemarks]).length := by
  refine ⟨?_, ?_, ?_, ?_⟩
  · exact (clean_data_us_blank_row_drop _ wRowOnlyCompany (by decide)).1 (by decide)
  · exact (clean_data_us_blank_row_drop _ wRowOnlyRemarks (by decide)).1 (by decide)
  · exact (clean_data_us_blank_row_drop _ wRowValid (by decide)).2.1 (by decide)
  · exact (clean_data_us_blank_row_drop _ wRowValid (by decide)).2.2

/-- C5: in every row of the cleaned table, the Driver License Number is
a digit string of length at most 4 (it matches `^\d{0,4}$`) and the
Mobile Number is a digit string of length exactly 10 (it matches
`^\d{10}$`). -/
theorem clean_data_us_field_invariants (raw : List Row) (r : Row)
    (hr : r ∈ clean_data_us raw) :
    ((pyStr r.license).length ≤ 4 ∧
      (pyStr r.license).data.all Char.isDigit = true) ∧
    ((pyStr r.mobile).length = 10 ∧
      (pyStr r.mobile).data.all Char.isDigit = true) := by
  obtain ⟨x, _, rfl⟩ := mem_clean_data_us hr
  refine ⟨?_, ?_⟩
  · rw [post_license]
    exact cleanLicense_spec x.license
  · rw [post_mobile]
    show (fix_mobile x.mobile).data.length = 10 ∧ _
    exact fix_mobile_str_len_all (pyStr x.mobile)

theorem clean_data_us_field_invariants_witness :
    ((pyStr wRowValidCleaned.license).length ≤ 4 ∧
      (pyStr wRowValidCleaned.license).data.all Char.isDigit = true) ∧
    ((pyStr wRowValidCleaned.mobile).length = 10 ∧
      (pyStr wRowValidCleaned.mobile).data.all Char.isDigit = true) :=
  clean_data_us_field_invariants [wRowValid] wRowValidCleaned (by decide)

/-! ### Validation flags (C1) -/

lemma licenseFlag_iff (s : String) (hd : s.data.all Char.isDigit = true) :
    licenseFlag (.str s) = true ↔
      ¬ (s.length = 4 ∧ s.data.all Char.isDigit = true) := by
  have hstrip : pyStrip s = s := pyStrip_of_digits s hd
  simp [licenseFlag, licenseCellText, hstrip, hd]

lemma midLastFlag_iff (t : String) :
    midLastFlag (.str t) = true ↔ pyStrip t = "" := by
  by_cases ht : t = ""
  · subst ht
    exact iff_of_true (by decide) (by decide)
  · simp [midLastFlag, midLastCellText, if_neg ht]

lemma range11_any_cellFlagged (s : Row) :
    (List.range 11).any (fun c => cellFlagged s c) =
      (licenseFlag s.license || midLastFlag s.midLast) := by
  have hr : List.range 11 = [0, 1, 2, 3, 4, 5, 6, 7, 8, 9, 10] := rfl
  rw [hr]
  cases h1 : licenseFlag s.license <;> cases h2 : midLastFlag s.midLast <;>
    simp [cellFlagged, h1, h2]

lemma has_errors_or (l : List Row) :
    has_errors_calc l =
      l.any (fun s => (List.range 11).any (fun c => cellFlagged s c)) := by
  simp only [range11_any_cellFlagged, has_errors_calc]
  rw [Bool.eq_iff_iff]
  simp only [Bool.or_eq_true, List.any_eq_true]
  constructor
  · rintro (⟨s, hs, hf⟩ | ⟨s, hs, hf⟩)
    · exact ⟨s, hs, by simp [hf]⟩
    · exact ⟨s, hs, by simp [hf]⟩
  · rintro ⟨s, hs, hf⟩
    rcases (by simpa using hf :
        licenseFlag s.license = true ∨ midLastFlag s.midLast = true) with hf | hf
    · exact Or.inl ⟨s, hs, hf⟩
    · exact Or.inr ⟨s, hs, hf⟩

/-- C1: in the workbook generated for a cleaned table, a data row's
Driver License Number cell is highlighted iff its written value is not
exactly 4 digit characters (so shorter values are flagged), its
Middle-and-Last-Name cell is highlighted iff its written value trims to
the empty string, no cell of any other column is ever highlighted, and
the returned `has_errors` boolean is the logical OR of all highlighted
cells of the table. -/
theorem generate_flags_iff (raw : List Row) (r : Row)
    (hr : r ∈ clean_data_us raw) :
    (cellFlagged r 6 = true ↔
      ¬ ((pyStr r.license).length = 4 ∧
         (pyStr r.license).data.all Char.isDigit = true)) ∧
    (cellFlagged r 5 = true ↔ pyStrip (pyStr r.midLast) = "") ∧
    (∀ c : Nat, c ≠ 5 → c ≠ 6 → cellFlagged r c = false) ∧
    (∀ wb : Workbook,
      (generate_visitor_only_us (clean_data_us raw) wb).2 =
        (clean_data_us raw).any
          (fun s => (List.range 11).any (fun c => cellFlagged s c))) := by
  obtain ⟨x, _, rfl⟩ := mem_clean_data_us hr
  refine ⟨?_, ?_, ?_, ?_⟩
  · show licenseFlag _ = true ↔ _
    rw [post_license, cleanLicense_isStr x.license]
    have hd := (cleanLicense_spec x.license).2
    simpa [pyStr] using licenseFlag_iff (pyStr (cleanLicense x.license)) hd
  · show midLastFlag _ = true ↔ _
    rw [post_midLast]
    exact midLastFlag_iff _
  · intro c h5 h6
    simp [cellFlagged, h5, h6]
  · intro wb
    exact has_errors_or (clean_data_us raw)

theorem generate_flags_iff_witness :
    (cellFlagged wRowValidCleaned 6 = true ↔
      ¬ ((pyStr wRowValidCleaned.license).length = 4 ∧
         (pyStr wRowValidCleaned.license).data.all Char.isDigit = true)) ∧
    (cellFlagged wRowValidCleaned 5 = true ↔
      pyStrip (pyStr wRowValidCleaned.midLast) = "") ∧
    (∀ c : Nat, c ≠ 5 → c ≠ 6 → cellFlagged wRowValidCleaned c = false) ∧
    (∀ wb : Workbook,
      (generate_visitor_only_us (clean_data_us [wRowValid]) wb).2 =
        (clean_data_us [wRowValid]).any
          (fun s => (List.range 11).any (fun c => cellFlagged s c))) :=
  generate_flags_iff [wRowValid] wRowValidCleaned (by decide)

/-! ### Missing Full Name behaviour (C10) -/

lemma mem_clean_data_us_of_mem {raw : List Row} {x : Row}
    (hx : x ∈ renumber (sortRows ((dropBlankRows raw).map natUpdate))) :
    licenseUpdate (genderUpdate (mobileUpdate (nameStep (plateUpdate x)))) ∈
      clean_data_us raw := by
  simp only [clean_data_us]
  exact List.mem_map_of_mem _ (List.mem_map_of_mem _ (List.mem_map_of_mem _
    (List.mem_map_of_mem _ (List.mem_map_of_mem _ hx))))

/-- C10: an input row whose Full Name is missing but which survives the
blank-row drop is stringified to "nan" and title-cased to "Nan", so the
cleaned table holds "Nan" as Full Name and First Name and the empty
string as Middle and Last Name; the generated workbook flags that cell
and `has_errors` is true. -/
theorem missing_fullname_flagged (raw : List Row) (r0 : Row) (h1 : r0 ∈ raw)
    (h2 : r0.fullName = Cell.na) (h3 : allBlank r0 = false) :
    (∃ r ∈ clean_data_us raw, r.fullName = .str ("Nan") ∧
      r.firstName = .str ("Nan") ∧ r.midLast = .str ("") ∧
      midLastFlag r.midLast = true) ∧
    ∀ wb : Workbook,
      (generate_visitor_only_us (clean_data_us raw) wb).2 = true := by
  have m1 : r0 ∈ dropBlankRows raw := List.mem_filter.mpr ⟨h1, by simp [h3]⟩
  have m2 : natUpdate r0 ∈ (dropBlankRows raw).map natUpdate :=
    List.mem_map_of_mem _ m1
  have m3 : natUpdate r0 ∈ sortRows ((dropBlankRows raw).map natUpdate) :=
    (List.mem_insertionSort rowLe).mpr m2
  obtain ⟨m, m4⟩ := mem_renumberFrom 1 _ _ m3
  have hzfull : ({ natUpdate r0 with sn := Cell.int m } : Row).fullName =
      Cell.na := by
    simp [natUpdate, h2]
  have m5 := mem_clean_data_us_of_mem m4
  have hfull :
      (licenseUpdate (genderUpdate (mobileUpdate (nameStep (plateUpdate
        { natUpdate r0 with sn := Cell.int m }))))).fullName = .str ("Nan") := by
    rw [post_fullName, hzfull]
    decide
  have hfirst :
      (licenseUpdate (genderUpdate (mobileUpdate (nameStep (plateUpdate
        { natUpdate r0 with sn := Cell.int m }))))).firstName = .str ("Nan") := by
    rw [post_firstName, hzfull]
    decide
  have hmid :
      (licenseUpdate (genderUpdate (mobileUpdate (nameStep (plateUpdate
        { natUpdate r0 with sn := Cell.int m }))))).midLast = .str ("") := by
    rw [post_midLast, hzfull]
    decide
  have hflag : midLastFlag (licenseUpdate (genderUpdate (mobileUpdate (nameStep
      (plateUpdate { natUpdate r0 with sn := Cell.int m }))))).midLast = true := by
    rw [hmid]
    decide
  refine ⟨⟨_, m5, hfull, hfirst, hmid, hflag⟩, ?_⟩
  intro wb
  show has_errors_calc (clean_data_us raw) = true
  rw [has_errors_calc]
  have : (clean_data_us raw).any (fun r => midLastFlag r.midLast) = true :=
    List.any_eq_true.mpr ⟨_, m5, hflag⟩
  rw [this, Bool.or_true]

theorem missing_fullname_flagged_witness :
    (∃ r ∈ clean_data_us [wRowValid, wRowNoName], r.fullName = .str ("Nan") ∧
      r.firstName = .str ("Nan") ∧ r.midLast = .str ("") ∧
      midLastFlag r.midLast = true) ∧
    ∀ wb : Workbook,
      (generate_visitor_only_us (clean_data_us [wRowValid, wRowNoName]) wb).2 =
        true :=
  missing_fullname_flagged [wRowValid, wRowNoName] wRowNoName (by decide)
    (by decide) (by decide)

/-! ### The sort step (C3) -/

lemma exists_str_of_isStr {c : Cell} (h : c.isStr = true) : ∃ s, c = .str s := by
  cases c with
  | str s => exact ⟨s, rfl⟩
  | na => simp [Cell.isStr] at h
  | int n => simp [Cell.isStr] at h

lemma pre_isStr {raw : List Row}
    (hstr : ∀ r ∈ raw, r.company.isStr = true ∧ r.fullName.isStr = true)
    {y : Row} (hy : y ∈ (dropBlankRows raw).map natUpdate) :
    y.company.isStr = true ∧ y.nationality.isStr = true ∧
    y.fullName.isStr = true := by
  obtain ⟨x, hx, rfl⟩ := List.mem_map.mp hy
  obtain ⟨h1, h2⟩ := hstr x (List.mem_filter.mp hx).1
  refine ⟨?_, ?_, ?_⟩
  · simpa [natUpdate] using h1
  · simp [natUpdate, normalizeNationality, Cell.isStr]
  · simpa [natUpdate] using h2

lemma rowLe_imp_keyLex {a b : Row}
    (hac : a.company.isStr = true) (han : a.nationality.isStr = true)
    (haf : a.fullName.isStr = true) (hbc : b.company.isStr = true)
    (hbn : b.nationality.isStr = true) (hbf : b.fullName.isStr = true)
    (h : rowLe a b) : keyLex a b := by
  obtain ⟨ca, ea⟩ := exists_str_of_isStr hac
  obtain ⟨na, ena⟩ := exists_str_of_isStr han
  obtain ⟨fa, efa⟩ := exists_str_of_isStr haf
  obtain ⟨cb, eb⟩ := exists_str_of_isStr hbc
  obtain ⟨nb, enb⟩ := exists_str_of_isStr hbn
  obtain ⟨fb, efb⟩ := exists_str_of_isStr hbf
  rw [rowLe, rowLeB_iff] at h
  rw [ea, ena, efa, eb, enb, efb] at h
  simp only [cellLt, Cell.str.injEq, charListLt_iff] at h
  simp only [keyLex, ea, ena, efa, eb, enb, efb, pyStr]
  exact h

lemma clean_map_sn (raw : List Row) :
    (clean_data_us raw).map (fun r => r.sn) =
      (renumber (sortRows ((dropBlankRows raw).map natUpdate))).map
        (fun r => r.sn) := by
  simp only [clean_data_us, List.map_map]
  exact List.map_congr_left (fun x _ => by
    simp [Function.comp, licenseUpdate, genderUpdate, mobileUpdate, nameStep,
      plateUpdate])

/-- C3: `clean_data_us` sorts after nationality normalization and before
title-casing, by the three keys (Company Full Name, Nationality,
Full Name) ascending in case-sensitive code-point string comparison; the
sort is a permutation and it is stable (rows with equal keys keep their
original relative order); S/N is then renumbered 1, 2, ... in the new
order. -/
theorem clean_data_us_sort_spec (raw : List Row)
    (hstr : ∀ r ∈ raw, r.company.isStr = true ∧ r.fullName.isStr = true) :
    clean_data_us raw =
      (((((renumber (sortRows ((dropBlankRows raw).map natUpdate))).map
        plateUpdate).map nameStep).map mobileUpdate).map genderUpdate).map
        licenseUpdate ∧
    (sortRows ((dropBlankRows raw).map natUpdate)).Perm
      ((dropBlankRows raw).map natUpdate) ∧
    List.Sorted keyLex (sortRows ((dropBlankRows raw).map natUpdate)) ∧
    (∀ k : Cell × Cell × Cell,
      (sortRows ((dropBlankRows raw).map natUpdate)).filter
          (fun r => sortKey r = k) =
        ((dropBlankRows raw).map natUpdate).filter (fun r => sortKey r = k)) ∧
    (clean_data_us raw).map (fun r => r.sn) =
      (List.range (clean_data_us raw).length).map (fun i => Cell.int (i + 1)) := by
  refine ⟨rfl, List.perm_insertionSort rowLe _, ?_, ?_, ?_⟩
  · have hs := List.sorted_insertionSort rowLe ((dropBlankRows raw).map natUpdate)
    refine List.Pairwise.imp_of_mem ?_ hs
    intro a b ha hb hab
    have ha' := pre_isStr hstr ((List.mem_insertionSort rowLe).mp ha)
    have hb' := pre_isStr hstr ((List.mem_insertionSort rowLe).mp hb)
    exact rowLe_imp_keyLex ha'.1 ha'.2.1 ha'.2.2 hb'.1 hb'.2.1 hb'.2.2 hab
  · intro k
    refine filter_insertionSort rowLe _ ?_ _
    intro x y hx hy
    rw [decide_eq_true_eq] at hx hy
    exact rowLe_of_sortKey_eq (hx.trans hy.symm)
  · rw [clean_map_sn, renumber, renumberFrom_map_sn]
    have hlen : (clean_data_us raw).length =
        (sortRows ((dropBlankRows raw).map natUpdate)).length := by
      simp [clean_data_us, renumber, renumberFrom_length]
    rw [hlen]
    exact List.map_congr_left (fun i _ => by rw [Nat.add_comm])

theorem clean_data_us_sort_spec_witness :
    clean_data_us [wRowValid, wRowValid2] =
      (((((renumber (sortRows ((dropBlankRows [wRowValid, wRowValid2]).map
        natUpdate))).map plateUpdate).map nameStep).map mobileUpdate).map
        genderUpdate).map licenseUpdate ∧
    (sortRows ((dropBlankRows [wRowValid, wRowValid2]).map natUpdate)).Perm
      ((dropBlankRows [wRowValid, wRowValid2]).map natUpdate) ∧
    List.Sorted keyLex
      (sortRows ((dropBlankRows [wRowValid, wRowValid2]).map natUpdate)) ∧
    (∀ k : Cell × Cell × Cell,
      (sortRows ((dropBlankRows [wRowValid, wRowValid2]).map natUpdate)).filter
          (fun r => sortKey r = k) =
        ((dropBlankRows [wRowValid, wRowValid2]).map natUpdate).filter
          (fun r => sortKey r = k)) ∧
    (clean_data_us [wRowValid, wRowValid2]).map (fun r => r.sn) =
      (List.range (clean_data_us [wRowValid, wRowValid2]).length).map
        (fun i => Cell.int (i + 1)) :=
  clean_data_us_sort_spec [wRowValid, wRowValid2] (by decide)

/-! ### Sheet preservation (C8) -/

lemma vl_map_mem (sheet : Sheet) (wb : Workbook) (p : String × Sheet)
    (hp : p ∈ wb) (hne : p.1 ≠ "Visitor List") :
    p ∈ wb.map
      (fun q => if q.1 = "Visitor List" then ("Visitor List", sheet) else q) := by
  have he :
      (fun q => if q.1 = "Visitor List" then ("Visitor List", sheet) else q) p =
        p := by
    simp [hne]
  exact he ▸ List.mem_map_of_mem _ hp

lemma vl_map_filter_ne (sheet : Sheet) (wb : Workbook) :
    (wb.map (fun q =>
        if q.1 = "Visitor List" then ("Visitor List", sheet) else q)).filter
      (fun p => p.1 ≠ "Visitor List") =
      wb.filter (fun p => p.1 ≠ "Visitor List") := by
  induction wb with
  | nil => rfl
  | cons q t ih =>
    simp only [List.map_cons, List.filter_cons]
    by_cases hq : q.1 = "Visitor List"
    · simpa [hq] using ih
    · simpa [hq] using ih

lemma vl_map_filter_eq_nil (sheet : Sheet) (t : Workbook)
    (hno : ∀ p ∈ t, p.1 ≠ "Visitor List") :
    (t.map (fun q =>
        if q.1 = "Visitor List" then ("Visitor List", sheet) else q)).filter
      (fun p => p.1 = "Visitor List") = [] := by
  induction t with
  | nil => rfl
  | cons q u ih =>
    have hq : q.1 ≠ "Visitor List" := hno q (List.mem_cons_self q u)
    simp only [List.map_cons, List.filter_cons]
    simp only [hq, if_false, decide_eq_true_eq]
    simpa [hq] using ih (fun p hp => hno p (List.mem_cons_of_mem _ hp))

lemma vl_map_filter_eq (sheet : Sheet) (wb : Workbook)
    (hn : (wb.map Prod.fst).Nodup)
    (hvl : wb.any (fun p => p.1 = "Visitor List") = true) :
    (wb.map (fun q =>
        if q.1 = "Visitor List" then ("Visitor List", sheet) else q)).filter
      (fun p => p.1 = "Visitor List") = [("Visitor List", sheet)] := by
  induction wb with
  | nil => simp at hvl
  | cons q t ih =>
    simp only [List.map_cons, List.filter_cons]
    by_cases hq : q.1 = "Visitor List"
    · have hno : ∀ p ∈ t, p.1 ≠ "Visitor List" := by
        intro p hp hcontra
        rw [List.map_cons, List.nodup_cons] at hn
        apply hn.1
        rw [hq, ← hcontra]
        exact List.mem_map_of_mem Prod.fst hp
      simp [hq, vl_map_filter_eq_nil sheet t hno]
    · have ht : t.any (fun p => p.1 = "Visitor List") = true := by
        rw [List.any_cons] at hvl
        simpa [hq] using hvl
      have hnt : (t.map Prod.fst).Nodup := by
        rw [List.map_cons, List.nodup_cons] at hn
        exact hn.2
      simpa [hq] using ih hnt ht

lemma filter_vl_nil (wb : Workbook)
    (hno : ∀ p ∈ wb, p.1 ≠ "Visitor List") :
    wb.filter (fun p => p.1 = "Visitor List") = [] := by
  induction wb with
  | nil => rfl
  | cons q t ih =>
    have hq : q.1 ≠ "Visitor List" := hno q (List.mem_cons_self q t)
    simp only [List.filter_cons]
    simpa [hq] using ih (fun p hp => hno p (List.mem_cons_of_mem _ hp))

/-- C8: the generator replaces (or creates) only the sheet named
"Visitor List"; every other sheet of the uploaded workbook appears in
the output with the same name and the same cell grid, and in the same
order. -/
theorem generate_preserves_sheets (df : List Row) (wb : Workbook)
    (hn : (wb.map Prod.fst).Nodup) :
    (∀ p ∈ wb, p.1 ≠ "Visitor List" → p ∈ (generate_visitor_only_us df wb).1) ∧
    ((generate_visitor_only_us df wb).1.filter
        (fun p => p.1 ≠ "Visitor List") =
      wb.filter (fun p => p.1 ≠ "Visitor List")) ∧
    ((generate_visitor_only_us df wb).1.filter
        (fun p => p.1 = "Visitor List") =
      [("Visitor List", renderSheet df)]) := by
  by_cases hvl : wb.any (fun p => p.1 = "Visitor List") = true
  · have hgen : (generate_visitor_only_us df wb).1 =
        wb.map (fun q =>
          if q.1 = "Visitor List" then ("Visitor List", renderSheet df)
          else q) := by
      simp only [generate_visitor_only_us, hvl, if_true]
    refine ⟨fun p hp hne => ?_, ?_, ?_⟩
    · rw [hgen]
      exact vl_map_mem _ wb p hp hne
    · rw [hgen]
      exact vl_map_filter_ne _ wb
    · rw [hgen]
      exact vl_map_filter_eq _ wb hn hvl
  · have hvf : wb.any (fun p => p.1 = "Visitor List") = false := by
      rw [← Bool.not_eq_true]
      exact hvl
    have hgen : (generate_visitor_only_us df wb).1 =
        wb ++ [("Visitor List", renderSheet df)] := by
      simp only [generate_visitor_only_us, hvf, Bool.false_eq_true, if_false]
    have hno : ∀ p ∈ wb, p.1 ≠ "Visitor List" := by
      intro p hp hcontra
      exact hvl (List.any_eq_true.mpr ⟨p, hp, by simp [hcontra]⟩)
    refine ⟨fun p hp hne => ?_, ?_, ?_⟩
    · rw [hgen]
      exact List.mem_append_left _ hp
    · rw [hgen, List.filter_append]
      have h2 : ([("Visitor List", renderSheet df)] : Workbook).filter
          (fun p => p.1 ≠ "Visitor List") = [] := by simp
      rw [h2, List.append_nil]
    · rw [hgen, List.filter_append, filter_vl_nil wb hno]
      simp

theorem generate_preserves_sheets_witness :
    (∀ p ∈ ([(("Other"), [[Cell.str ("keep")]]),
        (("Visitor List"), ([] : Sheet))] : Workbook),
      p.1 ≠ "Visitor List" →
        p ∈ (generate_visitor_only_us []
          [(("Other"), [[Cell.str ("keep")]]),
           (("Visitor List"), ([] : Sheet))]).1) ∧
    ((generate_visitor_only_us []
        [(("Other"), [[Cell.str ("keep")]]),
         (("Visitor List"), ([] : Sheet))]).1.filter
        (fun p => p.1 ≠ "Visitor List") =
      ([(("Other"), [[Cell.str ("keep")]]),
        (("Visitor List"), ([] : Sheet))] : Workbook).filter
        (fun p => p.1 ≠ "Visitor List")) ∧
    ((generate_visitor_only_us []
        [(("Other"), [[Cell.str ("keep")]]),
         (("Visitor List"), ([] : Sheet))]).1.filter
        (fun p => p.1 = "Visitor List") =
      [("Visitor List", renderSheet [])]) :=
  generate_preserves_sheets []
    [(("Other"), [[Cell.str ("keep")]]), (("Visitor List"), ([] : Sheet))]
    (by decide)

end VisitorCleaner
